import Mathlib

/-!
Verification of the SecureDove (DJABHR-SecDove) repository: the conversation
content-key lifecycle, the identity wrapping flow, and the schema-level
invariants.  Pure parts of the code are embedded as Lean functions; the
SQLite schema of src/server/config/database.js is embedded as data; server
route handlers absent from the snapshot are modelled from the spec where a
claim needs them (each such definition says so in its doc comment).
-/

namespace SecDove

/-- Error taxonomy of spec section 7 together with the HTTP-level outcomes
the API contract documents (400 invalid input, 409 username exists,
403 access denied, 404 not found). -/
inductive ApiError where
  | WeakPassword
  | AuthenticationFailed
  | VersionNotFound
  | NotAParticipant
  | ShareAlreadyExists
  | InconsistentKeyState
  | RotationRequired
  | StaleVersion
  | DecryptionFailed
  | Tampered
  | InvalidInput
  | UsernameExists
  | ConversationNotFound
  | AccessDenied
deriving DecidableEq, Repr

/-! ## Schema embedding (createMinimalSchema, src/server/config/database.js) -/

/-- One column of a CREATE TABLE statement: its name and whether its
declaration carries COLLATE NOCASE. -/
structure Column where
  colName : String
  nocase : Bool
deriving DecidableEq, Repr

/-- One table of the schema: its name and its columns in declaration order. -/
structure Table where
  tblName : String
  columns : List Column
deriving DecidableEq, Repr

/-- The users table (database.js lines 56-64): username is UNIQUE COLLATE
NOCASE. -/
def usersTable : Table :=
  ⟨"users",
   [⟨"id", false⟩, ⟨"username", true⟩, ⟨"password_hash", false⟩,
    ⟨"public_key", false⟩, ⟨"salt", false⟩, ⟨"encrypted_private_key", false⟩,
    ⟨"created_at", false⟩]⟩

/-- The contacts table (database.js lines 66-75): contact_username is declared
TEXT NOT NULL with no COLLATE clause. -/
def contactsTable : Table :=
  ⟨"contacts",
   [⟨"id", false⟩, ⟨"user_id", false⟩, ⟨"contact_user_id", false⟩,
    ⟨"contact_username", false⟩, ⟨"added_at", false⟩]⟩

/-- The conversations table (database.js lines 77-85): one row per
(conversation, content-key version, participant) — the participant's wrapped
share — with that triple as primary key; username is COLLATE NOCASE. -/
def conversationsTable : Table :=
  ⟨"conversations",
   [⟨"id", false⟩, ⟨"content_key_number", false⟩, ⟨"username", true⟩,
    ⟨"encrypted_content_key", false⟩, ⟨"created_at", false⟩]⟩

/-- The messages table (database.js lines 88-98): sender_username is COLLATE
NOCASE. -/
def messagesTable : Table :=
  ⟨"messages",
   [⟨"id", false⟩, ⟨"conversation_id", false⟩, ⟨"content_key_number", false⟩,
    ⟨"encrypted_msg_content", false⟩, ⟨"sender_username", true⟩,
    ⟨"created_at", false⟩, ⟨"updated_at", false⟩, ⟨"is_deleted", false⟩]⟩

/-- The conversation_events table (database.js lines 101-109): actor_username
is COLLATE NOCASE. -/
def conversationEventsTable : Table :=
  ⟨"conversation_events",
   [⟨"id", false⟩, ⟨"conversation_id", false⟩, ⟨"type", false⟩,
    ⟨"actor_username", true⟩, ⟨"details", false⟩, ⟨"created_at", false⟩]⟩

/-- The five tables createMinimalSchema creates, in order. -/
def schema : List Table :=
  [usersTable, contactsTable, conversationsTable, messagesTable,
   conversationEventsTable]

/-- Whether the named column of the named table is declared COLLATE NOCASE. -/
def columnHasNocase (t c : String) : Bool :=
  schema.any fun tb =>
    tb.tblName == t && tb.columns.any fun col => col.colName == c && col.nocase

/-- The (table, column) pairs that store usernames: exactly the columns the
UPDATE statements of normalizeExistingUsernames (database.js lines 155-161)
rewrite. -/
def usernameColumns : List (String × String) :=
  [("users", "username"), ("contacts", "contact_username"),
   ("conversations", "username"), ("messages", "sender_username"),
   ("conversation_events", "actor_username")]

/-- The username content of a database: the values of the five username
columns (the nullable ones as options, matching the WHERE ... IS NOT NULL
guards of the cleanup statements). -/
structure UsernameContent where
  usersUsername : List String
  contactsContactUsername : List String
  conversationsUsername : List String
  messagesSenderUsername : List (Option String)
  eventsActorUsername : List (Option String)
deriving DecidableEq, Repr

/-- SQLite LOWER(TRIM(s)): trim surrounding whitespace, then lowercase. -/
def sqlNormalize (s : String) : String := s.trim.toLower

/-- The five UPDATE statements of normalizeExistingUsernames
(src/server/config/database.js lines 154-194), run by openDatabase on every
database initialization after createMinimalSchema: each username column is
rewritten to LOWER(TRIM(value)), the nullable sender/actor columns only where
the value is not NULL. -/
def normalizeExistingUsernames (db : UsernameContent) : UsernameContent :=
  { usersUsername := db.usersUsername.map sqlNormalize
    contactsContactUsername := db.contactsContactUsername.map sqlNormalize
    conversationsUsername := db.conversationsUsername.map sqlNormalize
    messagesSenderUsername := db.messagesSenderUsername.map (Option.map sqlNormalize)
    eventsActorUsername := db.eventsActorUsername.map (Option.map sqlNormalize) }

/-- ASCII lowercase of a string, written over the character list so that the
kernel can evaluate it on literals. -/
def strLower (s : String) : String := String.mk (s.data.map Char.toLower)

/-- Equality under SQLite's NOCASE collation (ASCII case folding). -/
def nocaseEq (a b : String) : Bool := strLower a == strLower b

/-- An INSERT into users honouring the username UNIQUE COLLATE NOCASE
constraint of the schema: a username equal to a stored one up to ASCII case
is rejected. -/
def registerUsername (existing : List String) (u : String) :
    Except ApiError (List String) :=
  if existing.any fun v => nocaseEq v u then .error .UsernameExists
  else .ok (existing ++ [u])

/-- Claim C9, counterexample: the claim that every username column is
declared COLLATE NOCASE is false:
contact_username of contacts is a username column rewritten by
normalizeExistingUsernames, and its declaration in createMinimalSchema
carries no COLLATE clause. -/
theorem contacts_contact_username_not_nocase :
    ("contacts", "contact_username") ∈ usernameColumns ∧
    columnHasNocase "contacts" "contact_username" = false := by
  decide

/-- Claim C9, amended: usernames are case-insensitive identifiers: every database
initialization rewrites all five username columns to their lowercased,
trimmed form; the username columns of users, conversations, messages and
conversation_events are COLLATE NOCASE while contacts.contact_username is
not; and the UNIQUE COLLATE NOCASE constraint on users.username keeps two
usernames differing only in letter case from both being registered. -/
theorem username_normalization_and_nocase :
    (∀ db : UsernameContent,
      normalizeExistingUsernames db =
        ⟨db.usersUsername.map sqlNormalize,
         db.contactsContactUsername.map sqlNormalize,
         db.conversationsUsername.map sqlNormalize,
         db.messagesSenderUsername.map (Option.map sqlNormalize),
         db.eventsActorUsername.map (Option.map sqlNormalize)⟩)
    ∧ (columnHasNocase "users" "username" = true
       ∧ columnHasNocase "conversations" "username" = true
       ∧ columnHasNocase "messages" "sender_username" = true
       ∧ columnHasNocase "conversation_events" "actor_username" = true
       ∧ columnHasNocase "contacts" "contact_username" = false)
    ∧ (∀ (existing l : List String) (u1 u2 : String),
        nocaseEq u1 u2 = true →
        registerUsername existing u1 = .ok l →
        registerUsername l u2 = .error .UsernameExists) := by
  refine ⟨fun db => rfl, by decide, ?_⟩
  intro existing l u1 u2 hcase hok
  unfold registerUsername at hok ⊢
  split at hok
  · exact absurd hok (by simp)
  · have hl : l = existing ++ [u1] := by
      simpa using hok.symm
    subst hl
    have hmem : (existing ++ [u1]).any (fun v => nocaseEq v u2) = true := by
      refine List.any_eq_true.mpr ⟨u1, ?_, hcase⟩
      simp
    simp [hmem]

/-- Witness: registering Alice and then alice — which compare equal under
NOCASE — is rejected with a uniqueness violation. -/
theorem username_nocase_unique_witness :
    registerUsername ["Alice"] "alice" = .error .UsernameExists := by
  refine (username_normalization_and_nocase).2.2 [] ["Alice"] "Alice" "alice" ?_ ?_
  · decide
  · rfl

/-! ## Identity keys and the client authentication flow
(src/client/src/context/AuthContext.jsx; the crypto utilities it imports,
client/src/utils/crypto.js, are absent from the snapshot and are modelled
from spec section 4.1). -/

/-- An asymmetric keypair, its key material opaque. -/
structure KeyPair where
  pub : String
  priv : String
deriving DecidableEq, Repr

/-- Modelled from the spec: derivePasswordKey of client/src/utils/crypto.js is
absent from the snapshot; section 4.1's password-based KDF is modelled as the
pair of its inputs, so equal derived keys correspond exactly to equal
(password, salt) pairs. -/
def derivePasswordKey (password salt : String) : String × String :=
  (password, salt)

/-- Modelled from the spec: a private key wrapped by authenticated symmetric
encryption (encryptPrivateKey of crypto.js, absent); the wrap records the
wrapping key, and unwrapping checks it as the integrity check does. -/
structure WrappedKey where
  wrapKey : String × String
  payload : String
deriving DecidableEq, Repr

/-- Modelled from the spec: encryptPrivateKey of crypto.js (absent) encrypts
the exported private key under the password-derived key. -/
def encryptPrivateKey (priv : String) (passwordKey : String × String) :
    WrappedKey :=
  ⟨passwordKey, priv⟩

/-- Modelled from the spec: decryptPrivateKey of crypto.js (absent); a
decryption/MAC failure under the wrong key is AuthenticationFailed
(spec section 4.1). -/
def decryptPrivateKey (w : WrappedKey) (passwordKey : String × String) :
    Except ApiError String :=
  if w.wrapKey = passwordKey then .ok w.payload
  else .error .AuthenticationFailed

/-- Modelled from the spec: the configured password policy; the API contract
for POST /api/auth/register requires a password of at least 8 characters. -/
def passwordPolicy (p : String) : Bool := decide (8 ≤ p.length)

/-- An identity as spec section 3 records it: public key, wrapped private
key, KDF salt. -/
structure Identity where
  public_key : String
  wrapped_private_key : WrappedKey
  kdf_salt : String
deriving DecidableEq, Repr

/-- Modelled from the spec: generate_identity of section 4.1, the keypair and
the freshly generated salt passed as parameters standing for the randomness;
fails with WeakPassword when the policy is not met, otherwise wraps the
private key under the key derived from the password and the salt. -/
def generate_identity (password salt : String) (kp : KeyPair) :
    Except ApiError Identity :=
  if passwordPolicy password then
    .ok ⟨kp.pub, encryptPrivateKey kp.priv (derivePasswordKey password salt), salt⟩
  else .error .WeakPassword

/-- Modelled from the spec: unlock_identity of section 4.1 re-derives the
wrapping key and decrypts. -/
def unlock_identity (w : WrappedKey) (kdf_salt password : String) :
    Except ApiError String :=
  decryptPrivateKey w (derivePasswordKey password kdf_salt)

/-- Claim C3: wrap-then-unwrap round-trips: an identity generated from a policy-passing
password unlocks to the original private key under that password, and fails
with AuthenticationFailed under every other password. -/
theorem generate_identity_unlock_roundtrip (password salt : String)
    (kp : KeyPair) (ident : Identity)
    (hpol : passwordPolicy password = true)
    (hgen : generate_identity password salt kp = .ok ident) :
    unlock_identity ident.wrapped_private_key ident.kdf_salt password = .ok kp.priv
    ∧ ∀ other : String, other ≠ password →
        unlock_identity ident.wrapped_private_key ident.kdf_salt other =
          .error .AuthenticationFailed := by
  have hident :
      ident = ⟨kp.pub, ⟨(password, salt), kp.priv⟩, salt⟩ := by
    unfold generate_identity at hgen
    rw [if_pos hpol] at hgen
    exact (Except.ok.injEq _ _).mp hgen.symm
  subst hident
  constructor
  · show decryptPrivateKey ⟨(password, salt), kp.priv⟩ (password, salt) = .ok kp.priv
    simp [decryptPrivateKey]
  · intro other hne
    show decryptPrivateKey ⟨(password, salt), kp.priv⟩ (other, salt) =
      .error .AuthenticationFailed
    unfold decryptPrivateKey
    rw [if_neg]
    simp only [Prod.mk.injEq, not_and]
    intro h
    exact absurd h.symm hne

/-- Witness for the round-trip theorem at a concrete password and keypair. -/
theorem generate_identity_unlock_roundtrip_witness :
    unlock_identity ⟨("hunter2hunter2", "salt1"), "sk-bytes"⟩ "salt1" "hunter2hunter2"
        = .ok "sk-bytes"
    ∧ ∀ other : String, other ≠ "hunter2hunter2" →
        unlock_identity ⟨("hunter2hunter2", "salt1"), "sk-bytes"⟩ "salt1" other =
          .error .AuthenticationFailed :=
  generate_identity_unlock_roundtrip "hunter2hunter2" "salt1"
    ⟨"pk-bytes", "sk-bytes"⟩ ⟨"pk-bytes", ⟨("hunter2hunter2", "salt1"), "sk-bytes"⟩, "salt1"⟩
    (by decide) rfl

/-! ## The values the client stores and sends (AuthContext.jsx) -/

/-- A JSON-ish value as the client handles it; unwrapped private-key material
is a constructor of its own so that its occurrences can be traced. -/
inductive Val where
  | str : String → Val
  | num : Nat → Val
  | wrapped : WrappedKey → Val
  | privKeyVal : String → Val
  | nul : Val
deriving DecidableEq, Repr

/-- Whether a value is unwrapped private-key material. -/
def Val.isPrivateKeyMaterial : Val → Bool
  | .privKeyVal _ => true
  | _ => false

/-- JavaScript truthiness of a value, for the privateKey check of
initSession. -/
def Val.truthy : Val → Bool
  | .nul => false
  | .str s => s ≠ ""
  | .num n => n ≠ 0
  | .wrapped _ => true
  | .privKeyVal _ => true

/-- The browser localStorage as AuthContext uses it: the token entry and the
sessionData entry, the latter a parsed JSON object as key-value pairs. -/
structure ClientStorage where
  token : Option String
  sessionData : Option (List (String × Val))
deriving DecidableEq, Repr

/-- The clearSession helper (AuthContext.jsx lines 88-92): removes both
localStorage entries. -/
def clearSession (_ : ClientStorage) : ClientStorage := ⟨none, none⟩

/-- The request body authAPI.register sends (AuthContext.jsx lines 127-133):
username, password, public key, salt and the encrypted private key. -/
def registerRequestBody (username password public_key salt : String)
    (epk : WrappedKey) : List (String × Val) :=
  [("username", .str username), ("password", .str password),
   ("public_key", .str public_key), ("salt", .str salt),
   ("encrypted_private_key", .wrapped epk)]

/-- The request body authAPI.login sends (AuthContext.jsx line 177). -/
def loginRequestBody (username password : String) : List (String × Val) :=
  [("username", .str username), ("password", .str password)]

/-- The sessionData object persisted to localStorage by register
(AuthContext.jsx lines 151-158) and identically by login (lines 200-207):
six fields, and no privateKey field. -/
def persistedSessionData (userId : Nat) (username publicKey salt : String)
    (epk : WrappedKey) (loginTime : Nat) : List (String × Val) :=
  [("userId", .num userId), ("username", .str username),
   ("publicKey", .str publicKey), ("salt", .str salt),
   ("encrypted_private_key", .wrapped epk), ("loginTime", .num loginTime)]

/-- The in-memory session object register and login build (AuthContext.jsx
lines 138-149 and 189-197): the same fields plus the unwrapped private key,
held only in component state. -/
def memorySession (userId : Nat) (username publicKey salt : String)
    (epk : WrappedKey) (privKey : String) (loginTime : Nat) :
    List (String × Val) :=
  [("userId", .num userId), ("username", .str username),
   ("publicKey", .str publicKey), ("salt", .str salt),
   ("encrypted_private_key", .wrapped epk),
   ("privateKey", .privKeyVal privKey), ("loginTime", .num loginTime)]

/-- The localStorage state after a successful register or login: the token
and the persisted sessionData object (AuthContext.jsx lines 136-158 and
180-207). -/
def storageAfterAuth (token : String) (userId : Nat)
    (username publicKey salt : String) (epk : WrappedKey) (loginTime : Nat) :
    ClientStorage :=
  ⟨some token,
   some (persistedSessionData userId username publicKey salt epk loginTime)⟩

/-- Claim C4: the unwrapped private key is never persisted or transmitted: the
localStorage session record written by register and by login and every
request body sent to the server carry no private-key material, and logout
clears both storage entries; only the in-memory session holds the key. -/
theorem private_key_never_persisted_or_sent
    (username password public_key salt privKey token : String)
    (epk : WrappedKey) (userId loginTime : Nat) (stor : ClientStorage) :
    ((registerRequestBody username password public_key salt epk).all
        fun kv => !kv.2.isPrivateKeyMaterial) = true
    ∧ ((loginRequestBody username password).all
        fun kv => !kv.2.isPrivateKeyMaterial) = true
    ∧ ((persistedSessionData userId username public_key salt epk loginTime).all
        fun kv => !kv.2.isPrivateKeyMaterial) = true
    ∧ (storageAfterAuth token userId username public_key salt epk
        loginTime).sessionData =
        some (persistedSessionData userId username public_key salt epk loginTime)
    ∧ clearSession stor = ⟨none, none⟩
    ∧ ("privateKey", Val.privKeyVal privKey) ∈
        memorySession userId username public_key salt epk privKey loginTime := by
  refine ⟨rfl, rfl, rfl, rfl, rfl, ?_⟩
  simp [memorySession]

/-- The find for a field of a parsed JSON object. -/
def lookupField (pairs : List (String × Val)) (k : String) : Option Val :=
  (pairs.find? fun kv => kv.1 == k).map Prod.snd

/-- The initSession effect on mount (AuthContext.jsx lines 35-59): with a
token and sessionData both present, the parsed object becomes the session
only when its privateKey field is truthy; with the field absent or falsy --
or the parse failing -- clearSession runs and no session is set; with either
entry absent, nothing changes and no session is set. -/
def initSession (stor : ClientStorage) :
    ClientStorage × Option (List (String × Val)) :=
  match stor.token, stor.sessionData with
  | some _, some pairs =>
      match lookupField pairs "privateKey" with
      | some v => if v.truthy then (stor, some pairs) else (clearSession stor, none)
      | none => (clearSession stor, none)
  | _, _ => (stor, none)

/-- Claim C10: a session never survives a page reload: the sessionData persisted by
register or login has no privateKey field, so initSession on the storage
either flow leaves behind clears both entries and restores no session, and
on logged-out storage it restores no session either. -/
theorem session_not_restored_after_reload (token : String) (userId : Nat)
    (username publicKey salt : String) (epk : WrappedKey) (loginTime : Nat) :
    lookupField (persistedSessionData userId username publicKey salt epk
        loginTime) "privateKey" = none
    ∧ initSession (storageAfterAuth token userId username publicKey salt epk
        loginTime) = (⟨none, none⟩, none)
    ∧ initSession ⟨none, none⟩ = (⟨none, none⟩, none) := by
  refine ⟨rfl, ?_, rfl⟩
  rfl

/-! ## Registration (AuthContext.jsx register; the auth route modelled) -/

/-- The username format register validates first (AuthContext.jsx line 101):
3 to 20 characters, letters, digits, underscore or hyphen. -/
def usernameValid (u : String) : Bool :=
  decide (3 ≤ u.length) && decide (u.length ≤ 20) &&
    u.data.all fun c => c.isAlphanum || c == '_' || c == '-'

/-- A row of the users table (createMinimalSchema, database.js lines 56-64). -/
structure UserRow where
  id : Nat
  username : String
  password_hash : String
  public_key : String
  salt : String
  encrypted_private_key : WrappedKey
  created_at : Nat
deriving DecidableEq, Repr

/-- The users table content. -/
structure ServerUsers where
  users : List UserRow
deriving DecidableEq, Repr

/-- Whether a username is already registered, compared under the NOCASE
collation of the username column. -/
def usernameTaken (st : ServerUsers) (u : String) : Bool :=
  st.users.any fun r => nocaseEq r.username u

/-- Modelled from the spec: the password hashing of the register route
(bcrypt per the API contract), kept opaque. -/
def hashPassword (p : String) : String := String.append "bcrypt-of-" p

/-- Modelled from the spec: the POST /api/auth/register route
(server/routes/auth.js is absent from the snapshot); per the API contract it
validates the username format and the minimum password length of 8, rejects
an existing username, inserts the user row and returns it with a JWT
token. -/
def serverRegister (st : ServerUsers) (username password public_key salt : String)
    (epk : WrappedKey) (now : Nat) :
    Except ApiError (ServerUsers × UserRow × String) :=
  if usernameValid username then
    if passwordPolicy password then
      if usernameTaken st username then .error .UsernameExists
      else
        let row : UserRow :=
          ⟨st.users.length + 1, username, hashPassword password, public_key,
           salt, epk, now⟩
        .ok (⟨st.users ++ [row]⟩, row, String.append "jwt-for-" username)
    else .error .WeakPassword
  else .error .InvalidInput

/-- The register flow of AuthContext.jsx lines 95-168 in order: validate the
username format, check availability, derive the password key from the fresh
salt, wrap the private key, call the server, and only on success write the
token and the sessionData to localStorage and set the in-memory session. -/
def clientRegister (st : ServerUsers) (username password salt : String)
    (kp : KeyPair) (now : Nat) :
    Except ApiError (ServerUsers × ClientStorage × List (String × Val)) :=
  if usernameValid username then
    if usernameTaken st username then .error .UsernameExists
    else
      match serverRegister st username password kp.pub salt
          (encryptPrivateKey kp.priv (derivePasswordKey password salt)) now with
      | .error e => .error e
      | .ok (st2, row, token) =>
          .ok (st2,
            storageAfterAuth token row.id row.username row.public_key row.salt
              row.encrypted_private_key now,
            memorySession row.id row.username row.public_key row.salt
              row.encrypted_private_key kp.priv now)
  else .error .InvalidInput

/-- The observable outcome of a register attempt: on an error the catch
branch of register runs, so the server state and the localStorage are left
as they were and no session is set. -/
def registerRun (st : ServerUsers) (stor : ClientStorage)
    (username password salt : String) (kp : KeyPair) (now : Nat) :
    ServerUsers × ClientStorage × Option (List (String × Val)) × Option ApiError :=
  match clientRegister st username password salt kp now with
  | .ok (st2, stor2, sess) => (st2, stor2, some sess, none)
  | .error e => (st, stor, none, some e)

/-- Claim C8: a register attempt with a password below the configured policy fails with
WeakPassword and registers nothing: the users table, the localStorage and
the session are untouched. -/
theorem register_weak_password_rejected (st : ServerUsers)
    (stor : ClientStorage) (username password salt : String) (kp : KeyPair)
    (now : Nat)
    (hu : usernameValid username = true)
    (ht : usernameTaken st username = false)
    (hp : passwordPolicy password = false) :
    registerRun st stor username password salt kp now =
      (st, stor, none, some .WeakPassword) := by
  unfold registerRun clientRegister serverRegister
  rw [hu, ht, hp]
  simp

/-- Witness: registering alice with the 5-character password gets
WeakPassword and changes nothing. -/
theorem register_weak_password_rejected_witness :
    registerRun ⟨[]⟩ ⟨none, none⟩ "alice" "short" "salt1" ⟨"pk", "sk"⟩ 7 =
      (⟨[]⟩, ⟨none, none⟩, none, some .WeakPassword) :=
  register_weak_password_rejected ⟨[]⟩ ⟨none, none⟩ "alice" "short" "salt1"
    ⟨"pk", "sk"⟩ 7 (by decide) rfl (by decide)

/-! ## The content-key registry
The share store is the conversations table of createMinimalSchema
(database.js lines 77-85): one row per (conversation, content-key version,
participant).  The route handlers operating on it
(server/routes/conversations.js, server/routes/messages.js) are absent from
the snapshot, so the operations are modelled from spec sections 4.2-4.4 over
that table. -/

/-- A row of the conversations table: one participant's wrapped share of one
content-key version; the primary key is (id, content_key_number, username). -/
structure ShareRow where
  id : Nat
  content_key_number : Nat
  username : String
  encrypted_content_key : String
  created_at : Nat
deriving DecidableEq, Repr

/-- A row of the messages table (database.js lines 88-98). -/
structure MessageRow where
  id : Nat
  conversation_id : Nat
  content_key_number : Nat
  encrypted_msg_content : String
  sender_username : String
  created_at : Nat
  is_deleted : Bool
deriving DecidableEq, Repr

/-- The server-side authoritative key state: the share rows and the message
rows. -/
structure Registry where
  shares : List ShareRow
  messages : List MessageRow
deriving DecidableEq, Repr

/-- The empty database. -/
def Registry.empty : Registry := ⟨[], []⟩

/-- The primary key of a share row. -/
def pkey (r : ShareRow) : Nat × Nat × String :=
  (r.id, r.content_key_number, r.username)

/-- The PRIMARY KEY (id, content_key_number, username) constraint: no two
rows share their key. -/
def pkOk (rows : List ShareRow) : Prop := (rows.map pkey).Nodup

/-- The content-key version numbers recorded for a conversation, one per
share row. -/
def versionsOf (s : Registry) (cid : Nat) : List Nat :=
  ((s.shares.filter fun r => r.id == cid).map fun r => r.content_key_number)

/-- Whether some share row records this version for the conversation. -/
def hasVersion (s : Registry) (cid v : Nat) : Bool :=
  s.shares.any fun r => r.id == cid && r.content_key_number == v

/-- Whether the participant holds a share for this version of the
conversation. -/
def hasShare (s : Registry) (cid v : Nat) (u : String) : Bool :=
  s.shares.any fun r =>
    r.id == cid && r.content_key_number == v && r.username == u

/-- Whether the user holds any share of the conversation (the membership
check of the routes). -/
def isParticipant (s : Registry) (cid : Nat) (u : String) : Bool :=
  s.shares.any fun r => r.id == cid && r.username == u

/-- Modelled from the spec: latest_version of section 4.2, read off the
stored rows as the largest recorded version number, 0 when none exists. -/
def latest_version (s : Registry) (cid : Nat) : Nat :=
  (versionsOf s cid).foldr max 0

/-- Insertion of one share row per entry, all under one conversation and one
version number — the multi-row insert of a mint or carry-forward. -/
def addShares (s : Registry) (cid v : Nat)
    (entries : List (String × String)) (now : Nat) : Registry :=
  { s with shares :=
      s.shares ++ entries.map fun e => ⟨cid, v, e.1, e.2, now⟩ }

/-- Modelled from the spec: mint_version of section 4.2
(server/routes/conversations.js is absent).  The entries map each recipient
to their wrapped copy of the fresh key; an empty or duplicated recipient
list is invalid input; otherwise all shares are stored atomically under the
next version number latest + 1. -/
def mint_version (s : Registry) (cid : Nat)
    (entries : List (String × String)) (now : Nat) :
    Except ApiError (Registry × Nat) :=
  if entries.isEmpty then .error .InvalidInput
  else if (entries.map Prod.fst).Nodup then
    .ok (addShares s cid (latest_version s cid + 1) entries now,
         latest_version s cid + 1)
  else .error .InvalidInput

/-- Modelled from the spec: carry_forward_version of section 4.2
(server/routes/conversations.js is absent).  VersionNotFound if the version
does not exist; ShareAlreadyExists if a share for a target recipient at that
version already exists; a duplicated recipient list is invalid input;
otherwise the re-wrapped shares are added to the same version number. -/
def carry_forward_version (s : Registry) (cid v : Nat)
    (entries : List (String × String)) (now : Nat) :
    Except ApiError Registry :=
  if hasVersion s cid v then
    if entries.any fun e => hasShare s cid v e.1 then .error .ShareAlreadyExists
    else if (entries.map Prod.fst).Nodup then
      .ok (addShares s cid v entries now)
    else .error .InvalidInput
  else .error .VersionNotFound

/-- Modelled from the spec: the leave operation, DELETE
/api/conversations/:conversationId (route absent).  Not-found unless the
requester participates; rejected with RotationRequired unless the
requester's own share is attached to the current latest version (spec
section 4.3 rule 4, API contract error 400 "Must rotate to latest key
first"); on success the requester's rows for the conversation are removed. -/
def leave_conversation (s : Registry) (cid : Nat) (u : String) :
    Except ApiError Registry :=
  if isParticipant s cid u then
    if hasShare s cid (latest_version s cid) u then
      .ok { s with shares :=
              s.shares.filter fun r => !(r.id == cid && r.username == u) }
    else .error .RotationRequired
  else .error .ConversationNotFound

/-- Modelled from the spec: seal, POST /api/messages
(server/routes/messages.js is absent).  Access is denied unless the sender
participates in the conversation; the send fails with StaleVersion unless
the supplied version number is the conversation's latest (spec section 4.4);
otherwise the message row is stored bound to that version. -/
def send_message (s : Registry) (cid : Nat) (u : String) (v : Nat)
    (content : String) (now : Nat) : Except ApiError Registry :=
  if isParticipant s cid u then
    if v == latest_version s cid then
      .ok { s with messages :=
              s.messages ++ [⟨s.messages.length + 1, cid, v, content, u, now, false⟩] }
    else .error .StaleVersion
  else .error .AccessDenied

/-- The state a leave attempt leaves behind: unchanged on error. -/
def runLeave (s : Registry) (cid : Nat) (u : String) : Registry :=
  match leave_conversation s cid u with
  | .ok s2 => s2
  | .error _ => s

/-- The state a mint attempt leaves behind: unchanged on error. -/
def runMint (s : Registry) (cid : Nat) (entries : List (String × String))
    (now : Nat) : Registry :=
  match mint_version s cid entries now with
  | .ok (s2, _) => s2
  | .error _ => s

/-- The state a send attempt leaves behind: unchanged on error. -/
def runSend (s : Registry) (cid : Nat) (u : String) (v : Nat)
    (content : String) (now : Nat) : Registry :=
  match send_message s cid u v content now with
  | .ok s2 => s2
  | .error _ => s

/-- Claim C6: a leave by a participant whose own share is not attached to the latest
version is rejected with RotationRequired, and the rejected attempt leaves
the membership and key state unchanged. -/
theorem leave_requires_latest_share (s : Registry) (cid : Nat) (u : String)
    (hpart : isParticipant s cid u = true)
    (hstale : hasShare s cid (latest_version s cid) u = false) :
    leave_conversation s cid u = .error .RotationRequired
    ∧ runLeave s cid u = s := by
  have herr : leave_conversation s cid u = .error .RotationRequired := by
    unfold leave_conversation
    rw [hpart, hstale]
    simp
  exact ⟨herr, by unfold runLeave; rw [herr]⟩

/-- Witness: in a conversation whose latest version is 2, the participant
holding only a version-1 share cannot leave. -/
theorem leave_requires_latest_share_witness :
    leave_conversation ⟨[⟨1, 1, "a", "k1", 0⟩, ⟨1, 2, "b", "k2", 5⟩], []⟩ 1 "a"
        = .error .RotationRequired
    ∧ runLeave ⟨[⟨1, 1, "a", "k1", 0⟩, ⟨1, 2, "b", "k2", 5⟩], []⟩ 1 "a"
        = ⟨[⟨1, 1, "a", "k1", 0⟩, ⟨1, 2, "b", "k2", 5⟩], []⟩ :=
  leave_requires_latest_share ⟨[⟨1, 1, "a", "k1", 0⟩, ⟨1, 2, "b", "k2", 5⟩], []⟩
    1 "a" (by decide) (by decide)

/-- Claim C7: a send under any version number other than the conversation's current
latest fails with StaleVersion and stores nothing, and every stored message
is bound to the version that was latest when it was stored. -/
theorem send_message_stale_version (s : Registry) (cid : Nat) (u : String)
    (v : Nat) (content : String) (now : Nat) :
    (isParticipant s cid u = true → v ≠ latest_version s cid →
      send_message s cid u v content now = .error .StaleVersion
      ∧ runSend s cid u v content now = s)
    ∧ (∀ s2 : Registry, send_message s cid u v content now = .ok s2 →
        v = latest_version s cid
        ∧ s2.messages = s.messages ++
            [⟨s.messages.length + 1, cid, v, content, u, now, false⟩]) := by
  constructor
  · intro hpart hne
    have hc : (v == latest_version s cid) = false := by
      simpa using hne
    have herr : send_message s cid u v content now = .error .StaleVersion := by
      simp [send_message, hpart, hc]
    exact ⟨herr, by unfold runSend; rw [herr]⟩
  · intro s2 hok
    unfold send_message at hok
    split at hok
    next =>
      split at hok
      next hv =>
        refine ⟨by simpa using hv, ?_⟩
        have h2 := (Except.ok.injEq _ _).mp hok
        rw [← h2]
      next => exact absurd hok (by simp)
    next => exact absurd hok (by simp)

/-- Witness: sending under version 1 while the latest is 2 fails with
StaleVersion and leaves the store unchanged. -/
theorem send_message_stale_version_witness :
    send_message ⟨[⟨1, 1, "a", "k1", 0⟩, ⟨1, 2, "a", "k2", 5⟩], []⟩ 1 "a" 1 "m" 9
        = .error .StaleVersion
    ∧ runSend ⟨[⟨1, 1, "a", "k1", 0⟩, ⟨1, 2, "a", "k2", 5⟩], []⟩ 1 "a" 1 "m" 9
        = ⟨[⟨1, 1, "a", "k1", 0⟩, ⟨1, 2, "a", "k2", 5⟩], []⟩ :=
  (send_message_stale_version ⟨[⟨1, 1, "a", "k1", 0⟩, ⟨1, 2, "a", "k2", 5⟩], []⟩
    1 "a" 1 "m" 9).1 (by decide) (by decide)

/-! ## Share-store lemmas -/

lemma le_foldr_max (l : List Nat) (v : Nat) (hv : v ∈ l) :
    v ≤ l.foldr max 0 := by
  induction l with
  | nil => cases hv
  | cons a t ih =>
    rcases List.mem_cons.mp hv with h | h
    · subst h
      simp only [List.foldr_cons]
      exact Nat.le_max_left _ _
    · simp only [List.foldr_cons]
      exact le_trans (ih h) (Nat.le_max_right _ _)

lemma foldr_max_append (l1 l2 : List Nat) :
    (l1 ++ l2).foldr max 0 = max (l1.foldr max 0) (l2.foldr max 0) := by
  induction l1 with
  | nil => simp
  | cons a t ih => simp [List.foldr_cons, ih, Nat.max_assoc]

lemma foldr_max_map_const (es : List (String × String)) (v : Nat) :
    ((es.map fun _ => v).foldr max 0) = if es.isEmpty then 0 else v := by
  induction es with
  | nil => simp
  | cons e t ih =>
    simp only [List.map_cons, List.foldr_cons, ih]
    cases t with
    | nil => simp
    | cons a t2 => simp

lemma hasVersion_iff_mem (s : Registry) (cid v : Nat) :
    hasVersion s cid v = true ↔ v ∈ versionsOf s cid := by
  simp only [hasVersion, versionsOf, List.any_eq_true, List.mem_map,
    List.mem_filter, Bool.and_eq_true, beq_iff_eq]
  constructor
  · rintro ⟨r, hr, h1, h2⟩
    exact ⟨r, ⟨hr, by simp [h1]⟩, h2⟩
  · rintro ⟨r, ⟨hr, h1⟩, h2⟩
    exact ⟨r, hr, by simpa using h1, h2⟩

lemma hasShare_imp_hasVersion (s : Registry) (cid v : Nat) (u : String)
    (h : hasShare s cid v u = true) : hasVersion s cid v = true := by
  simp only [hasShare, hasVersion, List.any_eq_true, Bool.and_eq_true] at h ⊢
  obtain ⟨r, hr, ⟨h1, h2⟩, h3⟩ := h
  exact ⟨r, hr, h1, h2⟩

lemma hasShare_le_latest (s : Registry) (cid v : Nat) (u : String)
    (h : hasShare s cid v u = true) : v ≤ latest_version s cid :=
  le_foldr_max _ _ ((hasVersion_iff_mem s cid v).mp (hasShare_imp_hasVersion s cid v u h))

lemma hasShare_above_latest (s : Registry) (cid : Nat) (u : String) :
    hasShare s cid (latest_version s cid + 1) u = false := by
  cases hh : hasShare s cid (latest_version s cid + 1) u
  · rfl
  · exact absurd (hasShare_le_latest s cid _ u hh) (Nat.not_succ_le_self _)

lemma versions_of_new_rows (cid v now : Nat) (es : List (String × String))
    (cid2 : Nat) :
    (((es.map fun e => (⟨cid, v, e.1, e.2, now⟩ : ShareRow)).filter
        fun r => r.id == cid2).map fun r => r.content_key_number)
      = if cid2 = cid then es.map fun _ => v else [] := by
  induction es with
  | nil => simp
  | cons e t ih =>
    by_cases h : cid2 = cid
    · subst h
      simp only [List.map_cons, List.filter_cons]
      simpa using ih
    · have hfalse : ((⟨cid, v, e.1, e.2, now⟩ : ShareRow).id == cid2) = false := by
        simpa using fun hh : cid = cid2 => h hh.symm
      simp only [List.map_cons, List.filter_cons, hfalse]
      simpa [h] using ih

lemma versionsOf_addShares (s : Registry) (cid v : Nat)
    (es : List (String × String)) (now : Nat) (cid2 : Nat) :
    versionsOf (addShares s cid v es now) cid2
      = versionsOf s cid2 ++ if cid2 = cid then es.map fun _ => v else [] := by
  unfold versionsOf addShares
  simp only [List.filter_append, List.map_append]
  rw [versions_of_new_rows]

lemma latest_addShares_ne (s : Registry) (cid v : Nat)
    (es : List (String × String)) (now : Nat) (cid2 : Nat) (h : cid2 ≠ cid) :
    latest_version (addShares s cid v es now) cid2 = latest_version s cid2 := by
  unfold latest_version
  rw [versionsOf_addShares, if_neg h, List.append_nil]

lemma latest_addShares_eq (s : Registry) (cid v : Nat)
    (es : List (String × String)) (now : Nat) :
    latest_version (addShares s cid v es now) cid
      = max (latest_version s cid) (if es.isEmpty then 0 else v) := by
  unfold latest_version
  rw [versionsOf_addShares, if_pos rfl, foldr_max_append, foldr_max_map_const]

lemma hasShare_addShares_iff (s : Registry) (cid v : Nat)
    (es : List (String × String)) (now : Nat) (cid2 v2 : Nat) (u : String) :
    hasShare (addShares s cid v es now) cid2 v2 u = true
      ↔ hasShare s cid2 v2 u = true
        ∨ (cid2 = cid ∧ v2 = v ∧ u ∈ es.map Prod.fst) := by
  unfold hasShare addShares
  simp only [List.any_append, Bool.or_eq_true]
  constructor
  · rintro (h | h)
    · exact Or.inl h
    · right
      rw [List.any_eq_true] at h
      obtain ⟨r, hr, hp⟩ := h
      obtain ⟨e, he, hfe⟩ := List.mem_map.mp hr
      subst hfe
      simp only [Bool.and_eq_true, beq_iff_eq] at hp
      exact ⟨hp.1.1.symm, hp.1.2.symm, List.mem_map.mpr ⟨e, he, hp.2⟩⟩
  · rintro (h | ⟨h1, h2, h3⟩)
    · exact Or.inl h
    · right
      rw [List.any_eq_true]
      obtain ⟨e, he, hu⟩ := List.mem_map.mp h3
      refine ⟨⟨cid, v, e.1, e.2, now⟩, List.mem_map.mpr ⟨e, he, rfl⟩, ?_⟩
      simp [h1, h2, hu]

lemma hasVersion_addShares_left (s : Registry) (cid v : Nat)
    (es : List (String × String)) (now : Nat) (cid2 v2 : Nat)
    (h : hasVersion s cid2 v2 = true) :
    hasVersion (addShares s cid v es now) cid2 v2 = true := by
  unfold hasVersion at h
  unfold hasVersion addShares
  rw [List.any_append, h]
  rfl

lemma pkOk_addShares (s : Registry) (cid v : Nat)
    (es : List (String × String)) (now : Nat)
    (hpk : pkOk s.shares)
    (hnodup : (es.map Prod.fst).Nodup)
    (hnone : ∀ e ∈ es, hasShare s cid v e.1 = false) :
    pkOk (addShares s cid v es now).shares := by
  unfold pkOk addShares
  simp only [List.map_append, List.map_map]
  rw [List.nodup_append]
  refine ⟨hpk, ?_, ?_⟩
  · have hcomp :
        (es.map (pkey ∘ fun e => (⟨cid, v, e.1, e.2, now⟩ : ShareRow)))
          = (es.map Prod.fst).map fun w => (cid, v, w) := by
      rw [List.map_map]
      rfl
    rw [hcomp]
    exact hnodup.map fun a b hab => by simpa using hab
  · intro p hp1 hp2
    obtain ⟨r, hr, hpr⟩ := List.mem_map.mp hp1
    obtain ⟨e, he, hpe⟩ := List.mem_map.mp hp2
    have hshape : pkey r = (cid, v, e.1) := by
      rw [hpr, ← hpe]
      rfl
    have hid : r.id = cid := congrArg Prod.fst hshape
    have hck : r.content_key_number = v := congrArg (fun q => q.2.1) hshape
    have hun : r.username = e.1 := congrArg (fun q => q.2.2) hshape
    have hsh : hasShare s cid v e.1 = true := by
      unfold hasShare
      rw [List.any_eq_true]
      exact ⟨r, hr, by simp [hid, hck, hun]⟩
    exact absurd hsh (by simp [hnone e he])

/-- The ok and error shapes a carry-forward can take. -/
lemma carry_forward_cases (s : Registry) (cid v : Nat)
    (entries : List (String × String)) (now : Nat) :
    (carry_forward_version s cid v entries now
        = .ok (addShares s cid v entries now)
      ∧ hasVersion s cid v = true
      ∧ (entries.map Prod.fst).Nodup
      ∧ ∀ e ∈ entries, hasShare s cid v e.1 = false)
    ∨ ∃ e, carry_forward_version s cid v entries now = .error e := by
  unfold carry_forward_version
  by_cases hver : hasVersion s cid v = true
  · by_cases hany : (entries.any fun e => hasShare s cid v e.1) = true
    · exact Or.inr ⟨.ShareAlreadyExists, by simp [hver, hany]⟩
    · by_cases hnodup : (entries.map Prod.fst).Nodup
      · refine Or.inl ⟨by simp [hver, hany, hnodup], hver, hnodup, ?_⟩
        intro e he
        cases hs : hasShare s cid v e.1
        · rfl
        · exact absurd (List.any_eq_true.mpr ⟨e, he, hs⟩) hany
      · exact Or.inr ⟨.InvalidInput, by simp [hver, hany, hnodup]⟩
  · exact Or.inr ⟨.VersionNotFound, by simp [hver]⟩

/-- Claim C1: for every (conversation, version, participant) triple at most one wrapped
share exists, and carry-forward is guarded: a carry-forward naming a
recipient who already holds a share at that version fails with
ShareAlreadyExists; a successful carry-forward keeps the primary-key
uniqueness of shares and leaves every existing share row in place; and
repeating the same successful carry-forward fails with ShareAlreadyExists
the second time. -/
theorem carry_forward_share_uniqueness (s s2 : Registry) (cid v : Nat)
    (entries : List (String × String)) (u k : String) (now now2 : Nat) :
    (hasShare s cid v u = true → (u, k) ∈ entries →
      carry_forward_version s cid v entries now = .error .ShareAlreadyExists)
    ∧ (carry_forward_version s cid v entries now = .ok s2 →
        (pkOk s.shares → pkOk s2.shares) ∧ s.shares.Sublist s2.shares)
    ∧ (carry_forward_version s cid v entries now = .ok s2 → entries ≠ [] →
        carry_forward_version s2 cid v entries now2
          = .error .ShareAlreadyExists) := by
  refine ⟨?_, ?_, ?_⟩
  · intro hsh hmem
    have hver : hasVersion s cid v = true := hasShare_imp_hasVersion s cid v u hsh
    have hany : (entries.any fun e => hasShare s cid v e.1) = true :=
      List.any_eq_true.mpr ⟨(u, k), hmem, hsh⟩
    simp [carry_forward_version, hver, hany]
  · intro hok
    rcases carry_forward_cases s cid v entries now with
      ⟨heq, _, hnodup, hnone⟩ | ⟨e, herr⟩
    · have hs2 : s2 = addShares s cid v entries now := by
        rw [heq] at hok
        exact ((Except.ok.injEq _ _).mp hok).symm
      subst hs2
      constructor
      · intro hpk
        exact pkOk_addShares s cid v entries now hpk hnodup hnone
      · show s.shares.Sublist (addShares s cid v entries now).shares
        unfold addShares
        exact List.sublist_append_left _ _
    · rw [herr] at hok
      exact absurd hok (by simp)
  · intro hok hne
    rcases carry_forward_cases s cid v entries now with
      ⟨heq, hver, _, _⟩ | ⟨e, herr⟩
    · have hs2 : s2 = addShares s cid v entries now := by
        rw [heq] at hok
        exact ((Except.ok.injEq _ _).mp hok).symm
      subst hs2
      have hver2 : hasVersion (addShares s cid v entries now) cid v = true :=
        hasVersion_addShares_left s cid v entries now cid v hver
      obtain ⟨e0, he0⟩ := List.exists_mem_of_ne_nil entries hne
      have hsh2 : hasShare (addShares s cid v entries now) cid v e0.1 = true :=
        (hasShare_addShares_iff s cid v entries now cid v e0.1).mpr
          (Or.inr ⟨rfl, rfl, List.mem_map.mpr ⟨e0, he0, rfl⟩⟩)
      have hany2 :
          (entries.any fun e => hasShare (addShares s cid v entries now) cid v e.1)
            = true :=
        List.any_eq_true.mpr ⟨e0, he0, hsh2⟩
      simp [carry_forward_version, hver2, hany2]
    · rw [herr] at hok
      exact absurd hok (by simp)

/-- Witness: after carrying version 1 of conversation 1 forward to c, doing
it again fails with ShareAlreadyExists, as does naming a holder directly. -/
theorem carry_forward_share_uniqueness_witness :
    carry_forward_version ⟨[⟨1, 1, "a", "k1", 0⟩], []⟩ 1 1 [("a", "k2")] 3
      = .error .ShareAlreadyExists :=
  (carry_forward_share_uniqueness ⟨[⟨1, 1, "a", "k1", 0⟩], []⟩
      ⟨[⟨1, 1, "a", "k1", 0⟩], []⟩ 1 1 [("a", "k2")] "a" "k2" 3 3).1
    (by decide) (by decide)

/-- The ok and error shapes a mint can take. -/
lemma mint_version_cases (s : Registry) (cid : Nat)
    (entries : List (String × String)) (now : Nat) :
    (mint_version s cid entries now
        = .ok (addShares s cid (latest_version s cid + 1) entries now,
               latest_version s cid + 1)
      ∧ entries ≠ [] ∧ (entries.map Prod.fst).Nodup)
    ∨ ∃ e, mint_version s cid entries now = .error e := by
  unfold mint_version
  cases hemp : entries.isEmpty
  · by_cases hnodup : (entries.map Prod.fst).Nodup
    · refine Or.inl ⟨by simp [hemp, hnodup], ?_, hnodup⟩
      intro hh
      rw [hh] at hemp
      simp at hemp
    · exact Or.inr ⟨.InvalidInput, by simp [hemp, hnodup]⟩
  · exact Or.inr ⟨.InvalidInput, by
      have : entries = [] := List.isEmpty_iff.mp hemp
      simp [this]⟩

/-- Claim C5: minting is all-or-nothing: after any mint attempt, a participant holds a
share of the would-be new version latest + 1 exactly when the mint returned
ok and named that participant — so either every share of the new version is
visible or none is, and a partially minted version is never observable. -/
theorem mint_version_atomicity (s : Registry) (cid : Nat)
    (entries : List (String × String)) (now : Nat) (u : String) :
    hasShare (runMint s cid entries now) cid (latest_version s cid + 1) u = true
      ↔ (∃ r, mint_version s cid entries now = Except.ok r)
        ∧ u ∈ entries.map Prod.fst := by
  have habove : hasShare s cid (latest_version s cid + 1) u = false :=
    hasShare_above_latest s cid u
  rcases mint_version_cases s cid entries now with ⟨hok, hne, hnodup⟩ | ⟨e, herr⟩
  · rw [show runMint s cid entries now
        = addShares s cid (latest_version s cid + 1) entries now by
      unfold runMint
      rw [hok]]
    rw [hasShare_addShares_iff]
    simp [habove, hok]
  · rw [show runMint s cid entries now = s by unfold runMint; rw [herr]]
    simp [habove, herr]

/-- Witness: a successful mint of version 1 for a and b makes both shares of
the new version visible, and no one else's. -/
theorem mint_version_atomicity_witness :
    (hasShare (runMint Registry.empty 1 [("a", "ka"), ("b", "kb")] 2) 1 1 "a" = true
      ↔ (∃ r, mint_version Registry.empty 1 [("a", "ka"), ("b", "kb")] 2
            = Except.ok r)
        ∧ "a" ∈ ([("a", "ka"), ("b", "kb")].map Prod.fst)) :=
  mint_version_atomicity Registry.empty 1 [("a", "ka"), ("b", "kb")] 2 "a"

/-! ## Version numbering across operation sequences -/

/-- Modelled from the spec: POST /api/conversations (route absent) creates a
conversation by storing each participant's wrapped copy of the first content
key; creation is a mint on a conversation with no recorded version, so the
first version number is 1. -/
def create_conversation (s : Registry) (cid : Nat)
    (entries : List (String × String)) (now : Nat) :
    Except ApiError (Registry × Nat) :=
  if latest_version s cid == 0 then mint_version s cid entries now
  else .error .InvalidInput

/-- The registry mutations of the spec's lifecycle: create; add participants
with history sharing (a carry-forward onto an existing version); and rotate
(a mint of the next version — used for add without history and for
remove). -/
inductive RegistryOp where
  | create : Nat → List (String × String) → Nat → RegistryOp
  | addWithHistory : Nat → Nat → List (String × String) → Nat → RegistryOp
  | rotate : Nat → List (String × String) → Nat → RegistryOp
deriving DecidableEq, Repr

/-- Run one operation; a failing operation leaves the state unchanged. -/
def execOp (s : Registry) : RegistryOp → Registry
  | .create cid entries now =>
      match create_conversation s cid entries now with
      | .ok (s2, _) => s2
      | .error _ => s
  | .addWithHistory cid v entries now =>
      match carry_forward_version s cid v entries now with
      | .ok s2 => s2
      | .error _ => s
  | .rotate cid entries now => runMint s cid entries now

/-- Run a sequence of operations from the empty database. -/
def execOps (ops : List RegistryOp) : Registry :=
  ops.foldl execOp Registry.empty

lemma execOp_create (s : Registry) (cid : Nat)
    (entries : List (String × String)) (now : Nat) :
    execOp s (.create cid entries now)
      = match create_conversation s cid entries now with
        | .ok (s2, _) => s2
        | .error _ => s := rfl

lemma execOp_addWithHistory (s : Registry) (cid v : Nat)
    (entries : List (String × String)) (now : Nat) :
    execOp s (.addWithHistory cid v entries now)
      = match carry_forward_version s cid v entries now with
        | .ok s2 => s2
        | .error _ => s := rfl

lemma execOp_rotate (s : Registry) (cid : Nat)
    (entries : List (String × String)) (now : Nat) :
    execOp s (.rotate cid entries now) = runMint s cid entries now := rfl

lemma latest_addShares_nonempty (s : Registry) (cid v : Nat)
    (es : List (String × String)) (now : Nat) (hne : es ≠ []) :
    latest_version (addShares s cid v es now) cid
      = max (latest_version s cid) v := by
  rw [latest_addShares_eq]
  have hemp : es.isEmpty = false := by
    cases hval : es.isEmpty
    · rfl
    · exact absurd (List.isEmpty_iff.mp hval) hne
  rw [hemp]
  rfl

/-- Gapless numbering: for every conversation the recorded version numbers
are exactly 1, 2, ..., latest. -/
def goodVersions (s : Registry) : Prop :=
  ∀ cid v, v ∈ versionsOf s cid ↔ (1 ≤ v ∧ v ≤ latest_version s cid)

lemma goodVersions_empty : goodVersions Registry.empty := by
  intro cid v
  simp only [versionsOf, Registry.empty, latest_version]
  simp
  omega

lemma goodVersions_addShares_next (s : Registry) (cid : Nat)
    (es : List (String × String)) (now : Nat)
    (h : goodVersions s) (hne : es ≠ []) :
    goodVersions (addShares s cid (latest_version s cid + 1) es now) := by
  intro cid2 v
  have hemp : es.isEmpty = false := by
    cases hval : es.isEmpty
    · rfl
    · exact absurd (List.isEmpty_iff.mp hval) hne
  by_cases hc : cid2 = cid
  · subst hc
    rw [versionsOf_addShares, if_pos rfl,
      latest_addShares_nonempty s cid2 _ es now hne]
    have hmax : max (latest_version s cid2) (latest_version s cid2 + 1)
        = latest_version s cid2 + 1 := by omega
    rw [hmax]
    simp only [List.mem_append]
    have hmem :
        (v ∈ es.map fun _ => latest_version s cid2 + 1)
          ↔ v = latest_version s cid2 + 1 := by
      constructor
      · intro hv
        obtain ⟨e, _, hev⟩ := List.mem_map.mp hv
        exact hev.symm
      · intro hv
        obtain ⟨e0, he0⟩ := List.exists_mem_of_ne_nil es hne
        exact List.mem_map.mpr ⟨e0, he0, hv.symm⟩
    rw [hmem]
    have hold := h cid2 v
    constructor
    · rintro (hv | hv)
      · have := hold.mp hv
        constructor
        · exact this.1
        · omega
      · omega
    · rintro ⟨h1, h2⟩
      rcases Nat.lt_or_ge v (latest_version s cid2 + 1) with hlt | hge
      · exact Or.inl (hold.mpr ⟨h1, by omega⟩)
      · exact Or.inr (by omega)
  · rw [versionsOf_addShares, if_neg hc, List.append_nil,
      latest_addShares_ne s cid _ es now cid2 hc]
    exact h cid2 v

lemma goodVersions_addShares_existing (s : Registry) (cid v0 : Nat)
    (es : List (String × String)) (now : Nat)
    (h : goodVersions s) (hv0 : v0 ∈ versionsOf s cid) :
    goodVersions (addShares s cid v0 es now) := by
  intro cid2 v
  have hle : v0 ≤ latest_version s cid := le_foldr_max _ _ hv0
  by_cases hc : cid2 = cid
  · subst hc
    rw [versionsOf_addShares, if_pos rfl, latest_addShares_eq]
    have hlat :
        max (latest_version s cid2) (if es.isEmpty then 0 else v0)
          = latest_version s cid2 := by
      cases hval : es.isEmpty
      · show max (latest_version s cid2) v0 = latest_version s cid2
        omega
      · show max (latest_version s cid2) 0 = latest_version s cid2
        omega
    rw [hlat]
    simp only [List.mem_append]
    have hold := h cid2 v
    constructor
    · rintro (hv | hv)
      · exact hold.mp hv
      · obtain ⟨e, _, hev⟩ := List.mem_map.mp hv
        subst hev
        exact hold.mp hv0
    · intro hv
      exact Or.inl (hold.mpr hv)
  · rw [versionsOf_addShares, if_neg hc, List.append_nil,
      latest_addShares_ne s cid _ es now cid2 hc]
    exact h cid2 v

lemma goodVersions_runMint (s : Registry) (cid : Nat)
    (es : List (String × String)) (now : Nat) (h : goodVersions s) :
    goodVersions (runMint s cid es now) := by
  rcases mint_version_cases s cid es now with ⟨hok, hne, _⟩ | ⟨e, herr⟩
  · rw [show runMint s cid es now
        = addShares s cid (latest_version s cid + 1) es now by
      unfold runMint
      rw [hok]]
    exact goodVersions_addShares_next s cid es now h hne
  · rw [show runMint s cid es now = s by unfold runMint; rw [herr]]
    exact h

lemma goodVersions_execOp (s : Registry) (op : RegistryOp)
    (h : goodVersions s) : goodVersions (execOp s op) := by
  cases op with
  | create cid entries now =>
    rw [execOp_create]
    by_cases hz : (latest_version s cid == 0) = true
    · have hcr : create_conversation s cid entries now
          = mint_version s cid entries now := by
        unfold create_conversation
        rw [if_pos hz]
      rcases mint_version_cases s cid entries now with ⟨hok, hne, _⟩ | ⟨e, herr⟩
      · rw [hcr, hok]
        exact goodVersions_addShares_next s cid entries now h hne
      · rw [hcr, herr]
        exact h
    · have hcr : create_conversation s cid entries now = .error .InvalidInput := by
        unfold create_conversation
        rw [if_neg hz]
      rw [hcr]
      exact h
  | addWithHistory cid v entries now =>
    rw [execOp_addWithHistory]
    rcases carry_forward_cases s cid v entries now with
      ⟨heq, hver, _, _⟩ | ⟨e, herr⟩
    · rw [heq]
      exact goodVersions_addShares_existing s cid v entries now h
        ((hasVersion_iff_mem s cid v).mp hver)
    · rw [herr]
      exact h
  | rotate cid entries now =>
    rw [execOp_rotate]
    exact goodVersions_runMint s cid entries now h

lemma goodVersions_execOps (ops : List RegistryOp) :
    goodVersions (execOps ops) := by
  have hgen : ∀ (l : List RegistryOp) (s : Registry),
      goodVersions s → goodVersions (l.foldl execOp s) := by
    intro l
    induction l with
    | nil => exact fun s hs => hs
    | cons op t ih => exact fun s hs => ih _ (goodVersions_execOp s op hs)
  exact hgen ops Registry.empty goodVersions_empty

lemma shares_sublist_execOp (s : Registry) (op : RegistryOp) :
    s.shares.Sublist (execOp s op).shares := by
  have haddsub : ∀ (cid v : Nat) (es : List (String × String)) (now : Nat),
      s.shares.Sublist (addShares s cid v es now).shares := by
    intro cid v es now
    unfold addShares
    exact List.sublist_append_left _ _
  cases op with
  | create cid entries now =>
    rw [execOp_create]
    by_cases hz : (latest_version s cid == 0) = true
    · have hcr : create_conversation s cid entries now
          = mint_version s cid entries now := by
        unfold create_conversation
        rw [if_pos hz]
      rcases mint_version_cases s cid entries now with ⟨hok, _, _⟩ | ⟨e, herr⟩
      · rw [hcr, hok]
        exact haddsub _ _ _ _
      · rw [hcr, herr]
    · have hcr : create_conversation s cid entries now = .error .InvalidInput := by
        unfold create_conversation
        rw [if_neg hz]
      rw [hcr]
  | addWithHistory cid v entries now =>
    rw [execOp_addWithHistory]
    rcases carry_forward_cases s cid v entries now with
      ⟨heq, _, _, _⟩ | ⟨e, herr⟩
    · rw [heq]
      exact haddsub _ _ _ _
    · rw [herr]
  | rotate cid entries now =>
    rw [execOp_rotate]
    rcases mint_version_cases s cid entries now with ⟨hok, _, _⟩ | ⟨e, herr⟩
    · rw [show runMint s cid entries now
          = addShares s cid (latest_version s cid + 1) entries now by
        unfold runMint
        rw [hok]]
      exact haddsub _ _ _ _
    · rw [show runMint s cid entries now = s by unfold runMint; rw [herr]]

lemma foldr_max_mono_sublist (l1 l2 : List Nat) (h : l1.Sublist l2) :
    l1.foldr max 0 ≤ l2.foldr max 0 := by
  induction h with
  | slnil => exact le_refl 0
  | cons a h2 ih =>
    simp only [List.foldr_cons]
    exact le_trans ih (Nat.le_max_right _ _)
  | cons₂ a h2 ih =>
    simp only [List.foldr_cons]
    exact max_le_max (le_refl a) ih

lemma hasVersion_mono (s s2 : Registry) (cid v : Nat)
    (h : s.shares.Sublist s2.shares) (hv : hasVersion s cid v = true) :
    hasVersion s2 cid v = true := by
  unfold hasVersion at hv ⊢
  rw [List.any_eq_true] at hv ⊢
  obtain ⟨r, hr, hp⟩ := hv
  exact ⟨r, h.subset hr, hp⟩

/-- Claim C2: version numbers per conversation form a gapless sequence 1..latest after
every sequence of create / add-with-history / rotate operations, and one
further operation never decreases the latest version and never removes a
recorded version — so numbers are never reused or decreased. -/
theorem version_numbers_gapless (ops : List RegistryOp) (op : RegistryOp)
    (cid v : Nat) :
    (hasVersion (execOps ops) cid v = true
      ↔ 1 ≤ v ∧ v ≤ latest_version (execOps ops) cid)
    ∧ latest_version (execOps ops) cid
        ≤ latest_version (execOp (execOps ops) op) cid
    ∧ (hasVersion (execOps ops) cid v = true →
        hasVersion (execOp (execOps ops) op) cid v = true) := by
  refine ⟨?_, ?_, ?_⟩
  · rw [hasVersion_iff_mem]
    exact goodVersions_execOps ops cid v
  · unfold latest_version
    exact foldr_max_mono_sublist _ _
      (List.Sublist.map _ (List.Sublist.filter _ (shares_sublist_execOp _ op)))
  · exact hasVersion_mono _ _ cid v (shares_sublist_execOp _ op)

/-- Witness: creating conversation 1 for a and b and rotating once yields
versions 1 and 2, latest 2, and a further rotate only grows it. -/
theorem version_numbers_gapless_witness :
    (hasVersion (execOps [.create 1 [("a", "k1"), ("b", "k2")] 0,
        .rotate 1 [("a", "k3")] 5]) 1 2 = true
      ↔ 1 ≤ 2 ∧ 2 ≤ latest_version (execOps [.create 1 [("a", "k1"), ("b", "k2")] 0,
          .rotate 1 [("a", "k3")] 5]) 1)
    ∧ latest_version (execOps [.create 1 [("a", "k1"), ("b", "k2")] 0,
          .rotate 1 [("a", "k3")] 5]) 1
        ≤ latest_version (execOp (execOps [.create 1 [("a", "k1"), ("b", "k2")] 0,
            .rotate 1 [("a", "k3")] 5]) (.rotate 1 [("b", "k4")] 9)) 1
    ∧ (hasVersion (execOps [.create 1 [("a", "k1"), ("b", "k2")] 0,
          .rotate 1 [("a", "k3")] 5]) 1 2 = true →
        hasVersion (execOp (execOps [.create 1 [("a", "k1"), ("b", "k2")] 0,
            .rotate 1 [("a", "k3")] 5]) (.rotate 1 [("b", "k4")] 9)) 1 2 = true) :=
  version_numbers_gapless [.create 1 [("a", "k1"), ("b", "k2")] 0,
    .rotate 1 [("a", "k3")] 5] (.rotate 1 [("b", "k4")] 9) 1 2

end SecDove
